import Mathlib

/-!
Verification of tiny.c: pool controller, request parsing and dispatch.

A shallow embedding of `tiny.c`.  C `int` values are mathematical integers;
the one arithmetic operation that can leave the `int` range (`2 * numthread`)
is wrapped to 32 bits.  C strings are lists of characters (the bytes before the
terminating NUL); a write that does not fit its `MAXLINE`-byte array or a read
outside a string makes the function return `none`.  Calls that act on the outside world (thread creation,
semaphores, cancellation, writes to the client) are recorded as trace events.
-/

namespace Tiny

/-! ## Constants (tiny.c lines 29-31) -/

/-- Capacity of the connection queue: `#define SBUFSIZE 4`. -/
def SBUFSIZE : Nat := 4

/-- Initial pool size: `#define THREAD_INIT_NUM 1`. -/
def THREAD_INIT_NUM : Int := 1

/-- Size of the slot array `thread[]`: `#define THREAD_MAX_NUM 1024`. -/
def THREAD_MAX_NUM : Int := 1024

/-- Two's complement wrap of an integer into the range of a 32-bit `int`. -/
def int32 (x : Int) : Int := (x + 2147483648) % 4294967296 - 2147483648

/-! ## Pool controller (tiny.c lines 96-141) -/

/-- Calls the controller makes on a slot, in program order. -/
inductive Action where
  | Sem_init (i : Int)
  | Pthread_create (i : Int)
  | P (i : Int)
  | Pthread_cancel (i : Int)
  | V (i : Int)
  | fprintf_too_many
  deriving DecidableEq, Repr

/-- The `for (i = first; i < last; i++)` loop of `create_thread`, started at `i`.
The first argument bounds the number of iterations still allowed. -/
def create_thread_loop : Nat → Int → Int → List Action
  | 0, _, _ => []
  | fuel + 1, i, last =>
    if i < last then
      Action.Sem_init i :: Action.Pthread_create i :: create_thread_loop fuel (i + 1) last
    else []

/-- Function `create_thread(first, last)`: the loop runs `last - first` times at most. -/
def create_thread (first last : Int) : List Action :=
  create_thread_loop (last - first).toNat first last

/-- The `for (i = half_numtd; i < numthread; i++)` loop of `adjust_thread`,
started at `i`.  The first argument bounds the number of iterations still allowed. -/
def cancel_loop : Nat → Int → Int → List Action
  | 0, _, _ => []
  | fuel + 1, i, numthread =>
    if i < numthread then
      Action.P i :: Action.Pthread_cancel i :: Action.V i :: cancel_loop fuel (i + 1) numthread
    else []

/-- One iteration of the `while (1)` body of `adjust_thread`.  `full` and `empty`
are what `sbuf_full(sp)` and `sbuf_empty(sp)` return when called (the second is
only consulted when the first is false).  Returns the new `numthread` and the
calls made during the iteration. -/
def adjust_thread (full empty : Bool) (numthread : Int) : Int × List Action :=
  if full then
    if numthread = THREAD_MAX_NUM then
      (numthread, [Action.fprintf_too_many])
    else
      let double_numtd := int32 (2 * numthread)
      (double_numtd, create_thread numthread double_numtd)
  else if empty then
    if numthread = 1 then
      (numthread, [])
    else
      let half_numtd := Int.tdiv numthread 2
      (half_numtd, cancel_loop (numthread - half_numtd).toNat half_numtd numthread)
  else
    (numthread, [])

/-- Value of `numthread` after `k` iterations that all observe a full queue. -/
def numthread_full : Nat → Int → Int
  | 0, n => n
  | k + 1, n => numthread_full k (adjust_thread true false n).1

/-- Value of `numthread` after `k` iterations that all observe an empty queue. -/
def numthread_empty : Nat → Int → Int
  | 0, n => n
  | k + 1, n => numthread_empty k (adjust_thread false true n).1

/-- States of the controller reachable from `main`'s initialisation
`numthread = THREAD_INIT_NUM`. -/
inductive Reachable : Int → Prop where
  | init : Reachable THREAD_INIT_NUM
  | step (full empty : Bool) {n : Int} : Reachable n → Reachable (adjust_thread full empty n).1

/-- Slot index an action refers to, if any. -/
def Action.slot : Action → Option Int
  | .Sem_init i => some i
  | .Pthread_create i => some i
  | .P i => some i
  | .Pthread_cancel i => some i
  | .V i => some i
  | .fprintf_too_many => none

/-- Whether every `Pthread_cancel i` in a trace is issued while lock `i` is in
`held`, the locks taken by `P` and not yet released by `V`. -/
def cancel_under_lock : List Int → List Action → Bool
  | _, [] => true
  | held, Action.P i :: rest => cancel_under_lock (i :: held) rest
  | held, Action.V i :: rest => cancel_under_lock (held.erase i) rest
  | held, Action.Pthread_cancel i :: rest => decide (i ∈ held) && cancel_under_lock held rest
  | held, _ :: rest => cancel_under_lock held rest

/-- The shrink sequence for the slots `first, first + 1, ..., first + count - 1`:
lock, cancel, unlock, one slot after the other. -/
def cancel_slots (first : Int) (count : Nat) : List Action :=
  (List.range count).flatMap
    (fun j => [Action.P (first + j), Action.Pthread_cancel (first + j), Action.V (first + j)])

/-! ## Bounded connection queue (`sbuf.h`, used by tiny.c lines 80, 89, 115, 126, 150) -/

/-- Modelled from the spec: the `sbuf_t` queue type (`sbuf.h` / `sbuf.c` are not
among the sources).  An ordered sequence of connection handles (head first),
the capacity `C`, and the current count. -/
structure sbuf_t where
  n : Nat
  items : List Int
  count : Int
  deriving DecidableEq, Repr

/-- Modelled from the spec: `sbuf_init(sp, n)`, absent from the sources; the
queue is created empty with capacity `n`. -/
def sbuf_init (n : Nat) : sbuf_t := { n := n, items := [], count := 0 }

/-- Modelled from the spec: `sbuf_full(sp)`, absent from the sources; the
`IsFull()` snapshot predicate. -/
def sbuf_full (sp : sbuf_t) : Bool := decide (sp.count = (sp.n : Int))

/-- Modelled from the spec: `sbuf_empty(sp)`, absent from the sources; the
`IsEmpty()` snapshot predicate. -/
def sbuf_empty (sp : sbuf_t) : Bool := decide (sp.count = 0)

/-- Modelled from the spec: `sbuf_insert(sp, item)`, absent from the sources;
`Insert(handle)` blocks while the queue is full (result `none`: the call has
not returned) and otherwise appends the handle at the tail. -/
def sbuf_insert (sp : sbuf_t) (item : Int) : Option sbuf_t :=
  if sbuf_full sp then none
  else some { sp with items := sp.items ++ [item], count := sp.count + 1 }

/-- Modelled from the spec: `sbuf_remove(sp)`, absent from the sources;
`Remove()` blocks while the queue is empty (result `none`: the call has not
returned) and otherwise pops the head. -/
def sbuf_remove (sp : sbuf_t) : Option (Int × sbuf_t) :=
  if sbuf_empty sp then none
  else
    match sp.items with
    | [] => none
    | item :: rest => some (item, { sp with items := rest, count := sp.count - 1 })

/-- A queue operation attempted by the acceptor (`Insert`) or a worker (`Remove`). -/
inductive QueueOp where
  | Insert (item : Int)
  | Remove
  deriving DecidableEq, Repr

/-- History of a queue: its state, the handles whose `Insert` has returned (in
order), and the handles returned by `Remove` (in order). -/
structure QueueRun where
  q : sbuf_t
  inserted : List Int
  removed : List Int
  deriving DecidableEq, Repr

/-- Attempt one operation.  An operation that would block does not complete: it
changes nothing and is not recorded. -/
def QueueRun.op (r : QueueRun) : QueueOp → QueueRun
  | .Insert item =>
    match sbuf_insert r.q item with
    | none => r
    | some q => { q := q, inserted := r.inserted ++ [item], removed := r.removed }
  | .Remove =>
    match sbuf_remove r.q with
    | none => r
    | some (item, q) => { q := q, inserted := r.inserted, removed := r.removed ++ [item] }

/-- Run a sequence of operations on a fresh queue of capacity `C`. -/
def run_ops (C : Nat) (ops : List QueueOp) : QueueRun :=
  ops.foldl QueueRun.op { q := sbuf_init C, inserted := [], removed := [] }

/-! ## C string functions used by tiny.c -/

/-- Function `isspace` in the C locale. -/
def isspace (c : Char) : Bool :=
  c = ' ' || c = '\t' || c = '\n' || c = '\x0b' || c = '\x0c' || c = '\r'

/-- Function `tolower` in the C locale, as an `int`. -/
def tolower (c : Char) : Int := (c.toLower.toNat : Int)

/-- The C string held in a buffer: the bytes before the first NUL. -/
def cstr (buf : List Char) : List Char := buf.takeWhile (fun c => c != '\x00')

/-- Function `strcmp`: difference at the first position where the strings differ. -/
def strcmp : List Char → List Char → Int
  | [], [] => 0
  | [], b :: _ => 0 - (b.toNat : Int)
  | a :: _, [] => (a.toNat : Int)
  | a :: as, b :: bs => if a = b then strcmp as bs else (a.toNat : Int) - (b.toNat : Int)

/-- Function `strcasecmp`: as `strcmp`, on lower-cased characters. -/
def strcasecmp : List Char → List Char → Int
  | [], [] => 0
  | [], b :: _ => 0 - tolower b
  | a :: _, [] => tolower a
  | a :: as, b :: bs =>
    if tolower a = tolower b then strcasecmp as bs else tolower a - tolower b

/-- Function `strncasecmp`: as `strcasecmp`, on at most `n` characters. -/
def strncasecmp : Nat → List Char → List Char → Int
  | 0, _, _ => 0
  | _ + 1, [], [] => 0
  | _ + 1, [], b :: _ => 0 - tolower b
  | _ + 1, a :: _, [] => tolower a
  | n + 1, a :: as, b :: bs =>
    if tolower a = tolower b then strncasecmp n as bs else tolower a - tolower b

/-- Whether `needle` occurs at the start of `s`. -/
def starts_with : List Char → List Char → Bool
  | [], _ => true
  | _ :: _, [] => false
  | a :: needle, b :: s => a = b && starts_with needle s

/-- Function `strstr(haystack, needle)`: the part of `haystack` from the first
occurrence of `needle` on, `none` for a NULL result. -/
def strstr : List Char → List Char → Option (List Char)
  | [], needle => if starts_with needle [] then some [] else none
  | c :: cs, needle =>
    if starts_with needle (c :: cs) then some (c :: cs) else strstr cs needle

/-- Function `index(s, c)`: offset of the first occurrence of `c` in `s`, `none`
for a NULL result. -/
def index : List Char → Char → Option Nat
  | [], _ => none
  | a :: as, c => if a = c then some 0 else (index as c).map (fun p => p + 1)

/-! ## Robust I/O and `sscanf` as used by tiny.c

`csapp.c` and libc are outside the sources.  A connection is the list of bytes the
client sends; reads never fail (the `Rio_` wrappers terminate the process on
error). -/

/-- The read loop of `rio_readlineb`: copy at most `k` bytes, stopping after a
newline or at end of input.  Returns the bytes copied and the unread rest. -/
def rio_readlineb_loop : Nat → List Char → List Char × List Char
  | 0, s => ([], s)
  | _ + 1, [] => ([], [])
  | k + 1, c :: s =>
    if c = '\n' then ([c], s)
    else ((c :: (rio_readlineb_loop k s).1), (rio_readlineb_loop k s).2)

/-- Call `Rio_readlineb(rp, buf, maxlen)`: reads a line of at most `maxlen - 1`
bytes.  The first component is `none` when the call returns 0 at end of input
and leaves `buf` untouched, else the bytes stored in `buf` (a NUL follows them);
the return value is their number. -/
def Rio_readlineb (maxlen : Nat) (stream : List Char) : Option (List Char) × List Char :=
  match maxlen - 1, stream with
  | _ + 1, [] => (none, [])
  | k, s => (some (rio_readlineb_loop k s).1, (rio_readlineb_loop k s).2)

/-- Call `Rio_readnb(rp, usrbuf, n)`: the next `n` bytes, fewer at end of input. -/
def Rio_readnb (n : Nat) (stream : List Char) : List Char × List Char :=
  (stream.take n, stream.drop n)

/-- One `%s` conversion: skip white space, then take the non-space characters.
`none` when the input ends before any character is converted. -/
def scan_word (s : List Char) : Option (List Char × List Char) :=
  match s.dropWhile isspace with
  | [] => none
  | c :: cs => some ((c :: cs).takeWhile (fun x => !isspace x), (c :: cs).dropWhile (fun x => !isspace x))

/-- Call `sscanf(buf, "%s %s %s", method, uri, version)`.  A conversion that does
not happen leaves its target with its previous contents. -/
def sscanf_request (buf method0 uri0 version0 : List Char) : List Char × List Char × List Char :=
  match scan_word buf with
  | none => (method0, uri0, version0)
  | some (method, r1) =>
    match scan_word r1 with
    | none => (method, uri0, version0)
    | some (uri, r2) =>
      match scan_word r2 with
      | none => (method, uri, version0)
      | some (version, _) => (method, uri, version)

/-- One `%d` conversion: skip white space, optional sign, decimal digits (at least
one); the value is stored in an `int`. -/
def scan_int (s : List Char) : Option Int :=
  let t := s.dropWhile isspace
  let neg := t.head? = some '-'
  let u := if t.head? = some '-' ∨ t.head? = some '+' then t.drop 1 else t
  let ds := u.takeWhile Char.isDigit
  if ds = [] then none
  else
    let v : Int := ds.foldl (fun a d => 10 * a + ((d.toNat : Int) - 48)) 0
    some (int32 (if neg then 0 - v else v))

/-- Drop the literal `lit` from the front of `s`, `none` on a mismatch. -/
def scan_literal : List Char → List Char → Option (List Char)
  | [], s => some s
  | _ :: _, [] => none
  | a :: lit, b :: s => if a = b then scan_literal lit s else none

/-- Call `sscanf(buf, "Content-Length: %d", &len)`: the new value of `len`. -/
def sscanf_Content_Length (buf : List Char) (len : Int) : Int :=
  match scan_literal "Content-Length:".toList buf with
  | none => len
  | some rest => (scan_int rest).getD len

/-! ## Request handling (tiny.c lines 161-386) -/

/-- The `do ... while (strcmp(buf, "\r\n"))` loop of `read_requesthdrs`.  `post`
is `strcasecmp(method, "POST") == 0`; `buf` is the current content of the line
buffer.  Returns the unread input and `len`; `none` when the loop has not
ended within the allowed number of iterations. -/
def read_requesthdrs_loop (MAXLINE : Nat) (post : Bool) :
    Nat → List Char → List Char → Int → Option (List Char × Int)
  | 0, _, _, _ => none
  | fuel + 1, stream, buf, len =>
    let r := Rio_readlineb MAXLINE stream
    let buf1 := match r.1 with
      | none => buf
      | some line => cstr line
    let len1 :=
      if post && strncasecmp 15 buf1 "Content-Length:".toList = 0 then
        sscanf_Content_Length buf1 len
      else len
    if strcmp buf1 "\r\n".toList ≠ 0 then
      read_requesthdrs_loop MAXLINE post fuel r.2 buf1 len1
    else some (r.2, len1)

/-- Function `read_requesthdrs(rp, method, cgiargs)`.  `buf0` is the C string and
`cgi0` the bytes that the uninitialised locals `buf` and `cgi` hold on entry.
Returns the unread input and `cgiargs`.  `none` when the header loop never ends
(end of input without an empty line) or a buffer is overrun. -/
def read_requesthdrs (MAXLINE : Nat) (stream method cgiargs buf0 cgi0 : List Char) :
    Option (List Char × List Char) :=
  let post : Bool := strcasecmp method "POST".toList = 0
  match read_requesthdrs_loop MAXLINE post (stream.length + 2) stream buf0 (-1) with
  | none => none
  | some (rest, len) =>
    if post && len != -1 then
      -- `len` is converted to `size_t`: a negative value asks for everything
      let n : Nat := if len < 0 then rest.length else len.toNat
      let got := Rio_readnb n rest
      if MAXLINE < got.1.length then none
      else
        let cgi := got.1 ++ cgi0.drop got.1.length
        -- `strcpy(cgiargs, cgi)` copies up to the first NUL in `cgi`
        if cgi.all (fun c => c != '\x00') then none
        else some (got.2, cstr cgi)
    else some (rest, cgiargs)

/-- Result of `parse_uri`: the return value and the contents of the three
buffers after the call. -/
structure ParseUri where
  ret : Int
  uri : List Char
  filename : List Char
  cgiargs : List Char
  deriving DecidableEq, Repr

/-- Function `parse_uri(uri, filename, cgiargs, method)`; `filename` is an array of
`MAXLINE` bytes.  `none` when, in the static branch, the string built in
`filename` (with its terminating NUL) does not fit the array, or
`uri[strlen(uri)-1]` reads outside the string (empty `uri`).  In the dynamic
branch `filename` is one byte longer than the part of `uri` it copies, and the
`uri` that `doit` passes is at least five bytes shorter than `MAXLINE`. -/
def parse_uri (MAXLINE : Nat) (uri cgiargs method : List Char) : Option ParseUri :=
  if (strstr uri "cgi-bin".toList).isNone then
    if MAXLINE < (".".toList ++ uri).length + 1 then none
    else
      match uri.getLast? with
      | none => none
      | some c =>
        if c = '/' then
          if MAXLINE < (".".toList ++ uri ++ "home.html".toList).length + 1 then none
          else some ⟨1, uri, ".".toList ++ uri ++ "home.html".toList, "".toList⟩
        else some ⟨1, uri, ".".toList ++ uri, "".toList⟩
  else
    if strcasecmp method "GET".toList = 0 ∨ strcasecmp method "HEAD".toList = 0 then
      match index uri '?' with
      | some ptr => some ⟨0, uri.take ptr, ".".toList ++ uri.take ptr, uri.drop (ptr + 1)⟩
      | none => some ⟨0, uri, ".".toList ++ uri, "".toList⟩
    else some ⟨0, uri, ".".toList ++ uri, cgiargs⟩

/-- What a handler does, in program order. -/
inductive Event where
  | Rio_writen (buf : List Char)
  | Open (filename : List Char)
  | send_body (filename : List Char) (filesize : Int)
  | Fork
  | Signal_SIGPIPE_DFL
  | setenv (name value : List Char)
  | Dup2_stdout
  | Execve (filename : List Char)
  deriving DecidableEq, Repr

/-- Function `get_filetype(filename, filetype)`: the value stored in `filetype`. -/
def get_filetype (filename : List Char) : List Char :=
  if (strstr filename ".html".toList).isSome then "text/html".toList
  else if (strstr filename ".gif".toList).isSome then "image/gif".toList
  else if (strstr filename ".png".toList).isSome then "image/png".toList
  else if (strstr filename ".jpg".toList).isSome then "image/jpeg".toList
  else if (strstr filename ".mpeg".toList).isSome then "video/mpeg".toList
  else if (strstr filename ".flv".toList).isSome then "video/flv".toList
  else if (strstr filename ".mp4".toList).isSome then "video/mp4".toList
  else "text/plain".toList

/-- Conversion `%d` of `sprintf`. -/
def fmt_int (x : Int) : List Char :=
  if x < 0 then '-' :: (Nat.repr x.natAbs).toList else (Nat.repr x.natAbs).toList

/-- Function `serve_static(fd, filename, filesize, method)`. -/
def serve_static (filename : List Char) (filesize : Int) (method : List Char) : List Event :=
  let hdrs := [
    Event.Rio_writen "HTTP/1.0 200 OK\r\n".toList,
    Event.Rio_writen "Server: Tiny Web Server\r\n".toList,
    Event.Rio_writen ("Content-length: ".toList ++ fmt_int filesize ++ "\r\n".toList),
    Event.Rio_writen ("Content-type: ".toList ++ get_filetype filename ++ "\r\n\r\n".toList)]
  if strcasecmp method "HEAD".toList = 0 then hdrs
  else hdrs ++ [Event.Open filename, Event.send_body filename filesize]

/-- Function `serve_dynamic(fd, filename, cgiargs, method)`; the events after
`Fork` are those of the child. -/
def serve_dynamic (filename cgiargs method : List Char) : List Event :=
  [ Event.Rio_writen "HTTP/1.0 200 OK\r\n".toList,
    Event.Rio_writen "Server: Tiny Web Server\r\n".toList,
    Event.Fork,
    Event.Signal_SIGPIPE_DFL,
    Event.setenv "QUERY_STRING".toList cgiargs,
    Event.setenv "REQUEST_METHOD".toList method,
    Event.Dup2_stdout,
    Event.Execve filename ]

/-- Function `clienterror(fd, cause, errnum, shortmsg, longmsg)`. -/
def clienterror (cause errnum shortmsg longmsg : List Char) : List Event :=
  [ Event.Rio_writen ("HTTP/1.0 ".toList ++ errnum ++ " ".toList ++ shortmsg ++ "\r\n".toList),
    Event.Rio_writen "Content-type: text/html\r\n\r\n".toList,
    Event.Rio_writen "<html><title>Tiny Error</title>".toList,
    Event.Rio_writen "<body bgcolor=ffffff>\r\n".toList,
    Event.Rio_writen (errnum ++ ": ".toList ++ shortmsg ++ "\r\n".toList),
    Event.Rio_writen ("<p>".toList ++ longmsg ++ ": ".toList ++ cause ++ "\r\n".toList),
    Event.Rio_writen "<hr><em>The Tiny Web server</em>\r\n".toList ]

/-- The fields of `struct stat` that `doit` reads. -/
structure Stat where
  st_mode : Nat
  st_size : Int
  deriving DecidableEq, Repr

/-- Macro `S_ISREG(m)`: `(m & S_IFMT) == S_IFREG`. -/
def S_ISREG (m : Nat) : Bool := (m &&& 0o170000) == 0o100000

/-- Owner read permission bit. -/
def S_IRUSR : Nat := 0o400

/-- Owner execute permission bit. -/
def S_IXUSR : Nat := 0o100

/-- Contents of the locals of `doit` and `read_requesthdrs` that are read before
the program has written them. -/
structure Uninit where
  method : List Char
  uri : List Char
  version : List Char
  cgiargs : List Char
  hdr_buf : List Char
  cgi : List Char
  deriving DecidableEq, Repr

/-- The handler call `doit` ends with. -/
inductive Call where
  | no_request
  | clienterror (cause errnum shortmsg longmsg : List Char)
  | serve_static (filename : List Char) (filesize : Int) (method : List Char)
  | serve_dynamic (filename cgiargs method : List Char)
  deriving DecidableEq, Repr

/-- Events of the call `doit` ends with. -/
def Call.events : Call → List Event
  | .no_request => []
  | .clienterror cause errnum shortmsg longmsg => Tiny.clienterror cause errnum shortmsg longmsg
  | .serve_static filename filesize method => Tiny.serve_static filename filesize method
  | .serve_dynamic filename cgiargs method => Tiny.serve_dynamic filename cgiargs method

/-- Function `doit(fd)`: the handler it calls for the request read from `stream`,
given the file system's answer to `stat`.  `none` when `read_requesthdrs` or
`parse_uri` does not return normally (a loop that never ends, a buffer overrun). -/
def doit (MAXLINE : Nat) (stat : List Char → Option Stat) (u : Uninit) (stream : List Char) :
    Option Call :=
  match Rio_readlineb MAXLINE stream with
  | (none, _) => some Call.no_request
  | (some [], _) => some Call.no_request
  | (some (c :: line), rest) =>
    let req := sscanf_request (cstr (c :: line)) u.method u.uri u.version
    let method := req.1
    let uri := req.2.1
    if ¬ (strcasecmp method "GET".toList = 0 ∨ strcasecmp method "HEAD".toList = 0 ∨
          strcasecmp method "POST".toList = 0) then
      some (Call.clienterror method "501".toList "Not Implemented".toList
        "Tiny does not implement this method".toList)
    else
      match read_requesthdrs MAXLINE rest method u.cgiargs u.hdr_buf u.cgi with
      | none => none
      | some (_, cgiargs) =>
        match parse_uri MAXLINE uri cgiargs method with
        | none => none
        | some p =>
          match stat p.filename with
          | none =>
            some (Call.clienterror p.filename "404".toList "Not found".toList
              "Tiny couldn't find this file".toList)
          | some sbuf =>
            if p.ret ≠ 0 then
              if ¬ S_ISREG sbuf.st_mode ∨ ¬ (S_IRUSR &&& sbuf.st_mode ≠ 0) then
                some (Call.clienterror p.filename "403".toList "Forbidden".toList
                  "Tiny couldn't read the file".toList)
              else some (Call.serve_static p.filename (int32 sbuf.st_size) method)
            else
              if ¬ S_ISREG sbuf.st_mode ∨ ¬ (S_IXUSR &&& sbuf.st_mode ≠ 0) then
                some (Call.clienterror p.filename "403".toList "Forbidden".toList
                  "Tiny couldn't run the CGI program".toList)
              else some (Call.serve_dynamic p.filename p.cgiargs method)

/-- The request of the POST scenario. -/
def post_request : List Char :=
  "POST /cgi-bin/echo HTTP/1.0\r\nHost: x\r\nContent-Length: 5\r\n\r\na=123".toList

/-! ## Auxiliary definitions used in the statements -/

/-- A static URI of 8187 bytes that ends in `/`: the longest URI that fits a request
line of `MAXLINE - 1 = 8191` bytes after `GET` and a space. -/
def long_uri : List Char := '/' :: (List.replicate 8185 'a' ++ ['/'])

/-- The request `GET <long_uri> HTTP/1.0` with no headers. -/
def long_request : List Char :=
  "GET ".toList ++ (long_uri ++ " HTTP/1.0\r\n\r\n".toList)

/-- The values `numthread` takes: the powers of two up to `THREAD_MAX_NUM`. -/
def pool_sizes : List Int := [1, 2, 4, 8, 16, 32, 64, 128, 256, 512, 1024]

/-- The invariant of a queue history of capacity `C`. -/
def QueueRun.ok (C : Nat) (r : QueueRun) : Prop :=
  r.q.n = C ∧ r.q.count = (r.q.items.length : Int) ∧ r.q.count ≤ (C : Int) ∧
    r.removed ++ r.q.items = r.inserted

/-- A file system with one regular file, `./secret.txt`, that its owner may write
but not read (mode 0200), and the CGI program `./cgi-bin/echo` (mode 0755). -/
def stat_example (filename : List Char) : Option Stat :=
  if filename = "./secret.txt".toList then some ⟨0o100200, 12⟩
  else if filename = "./cgi-bin/echo".toList then some ⟨0o100755, 16384⟩
  else none

/-- Locals of a first call: every buffer zero-filled. -/
def zeroed (MAXLINE : Nat) : Uninit :=
  ⟨[], [], [], [], [], List.replicate MAXLINE '\x00'⟩

/-- Locals as a POST with the 10-byte body `name=alice` leaves them in `cgi`. -/
def after_longer_post (MAXLINE : Nat) : Uninit :=
  ⟨[], [], [], [], [], "name=alice".toList ++ List.replicate (MAXLINE - 10) '\x00'⟩

/-! ## Theorems: pool controller -/

theorem int32_of_range (x : Int) (h1 : -2147483648 ≤ x) (h2 : x < 2147483648) : int32 x = x := by
  unfold int32
  omega

theorem adjust_full_fst (empty : Bool) (n : Int) :
    (adjust_thread true empty n).1 = if n = THREAD_MAX_NUM then n else int32 (2 * n) := by
  by_cases h : n = THREAD_MAX_NUM <;> simp [adjust_thread, h]

theorem adjust_empty_fst (n : Int) :
    (adjust_thread false true n).1 = if n = 1 then n else Int.tdiv n 2 := by
  by_cases h : n = 1 <;> simp [adjust_thread, h]

theorem adjust_neither_fst (n : Int) : (adjust_thread false false n).1 = n := by
  simp [adjust_thread]

theorem numthread_full_succ (k : Nat) (n : Int) :
    numthread_full (k + 1) n = (adjust_thread true false (numthread_full k n)).1 := by
  induction k generalizing n with
  | zero => rfl
  | succ k ih =>
    show numthread_full (k + 1) (adjust_thread true false n).1 = _
    rw [ih]
    rfl

theorem numthread_empty_succ (k : Nat) (n : Int) :
    numthread_empty (k + 1) n = (adjust_thread false true (numthread_empty k n)).1 := by
  induction k generalizing n with
  | zero => rfl
  | succ k ih =>
    show numthread_empty (k + 1) (adjust_thread false true n).1 = _
    rw [ih]
    rfl

theorem two_pow_le_max (k : Nat) (hk : k ≤ 10) : (2 : Int) ^ k ≤ 1024 := by
  have h : (2 : Int) ^ k ≤ 2 ^ 10 := pow_le_pow_right₀ (by norm_num) hk
  simpa using h

theorem two_pow_lt_max (k : Nat) (hk : k < 10) : (2 : Int) ^ k ≤ 512 := by
  have h : (2 : Int) ^ k ≤ 2 ^ 9 := pow_le_pow_right₀ (by norm_num) (by omega)
  simpa using h

theorem two_pow_pos_int (k : Nat) : (1 : Int) ≤ 2 ^ k := by
  have h : (0 : Int) < 2 ^ k := by positivity
  omega

theorem numthread_full_grow (j k : Nat) (h : k + j ≤ 10) :
    numthread_full j (2 ^ k) = 2 ^ (k + j) := by
  induction j generalizing k with
  | zero => rfl
  | succ j ih =>
    have hlt := two_pow_lt_max k (by omega)
    have hpos := two_pow_pos_int k
    have hstep : (adjust_thread true false ((2 : Int) ^ k)).1 = 2 ^ (k + 1) := by
      rw [adjust_full_fst, if_neg (by unfold THREAD_MAX_NUM; omega),
        int32_of_range _ (by omega) (by omega), pow_succ]
      ring
    show numthread_full j (adjust_thread true false ((2 : Int) ^ k)).1 = _
    rw [hstep, ih (k + 1) (by omega)]
    congr 1
    omega

theorem numthread_full_at_max (j : Nat) : numthread_full j THREAD_MAX_NUM = THREAD_MAX_NUM := by
  induction j with
  | zero => rfl
  | succ j ih =>
    rw [numthread_full_succ, ih, adjust_full_fst, if_pos rfl]

theorem numthread_full_add (a b : Nat) (n : Int) :
    numthread_full (a + b) n = numthread_full b (numthread_full a n) := by
  induction a generalizing n with
  | zero => simp [numthread_full]
  | succ a ih =>
    rw [Nat.add_right_comm]
    exact ih _

theorem numthread_full_capped (j k : Nat) (hk : k ≤ 10) (h : 10 ≤ k + j) :
    numthread_full j (2 ^ k) = THREAD_MAX_NUM := by
  obtain ⟨d, rfl⟩ : ∃ d, j = (10 - k) + d := ⟨j - (10 - k), by omega⟩
  rw [numthread_full_add, numthread_full_grow (10 - k) k (by omega)]
  have : k + (10 - k) = 10 := by omega
  rw [this]
  exact numthread_full_at_max d

/-- C1 (as amended): for every starting value `N = 2 ^ k` with `k ≤ 10` (the values
the controller can reach from `THREAD_INIT_NUM`), under a sustained queue-full
observation `numthread` runs through `N, 2N, 4N, ...` up to `THREAD_MAX_NUM`:
after `j` steps it is `2 ^ j * N` as long as that is at most 1024 and 1024 from
then on; no value exceeds `THREAD_MAX_NUM`, and each step doubles `numthread`
or leaves it unchanged. -/
theorem full_queue_doubles_to_max (k : Nat) (hk : k ≤ 10) :
    (∀ j, k + j ≤ 10 → numthread_full j (2 ^ k) = 2 ^ j * 2 ^ k) ∧
    (∀ j, 10 ≤ k + j → numthread_full j (2 ^ k) = THREAD_MAX_NUM) ∧
    (∀ j, numthread_full j (2 ^ k) ≤ THREAD_MAX_NUM) ∧
    (∀ j, numthread_full (j + 1) (2 ^ k) = 2 * numthread_full j (2 ^ k) ∨
      numthread_full (j + 1) (2 ^ k) = numthread_full j (2 ^ k)) := by
  have grow : ∀ j, k + j ≤ 10 → numthread_full j (2 ^ k) = 2 ^ j * 2 ^ k := by
    intro j hj
    rw [numthread_full_grow j k hj, pow_add]
    ring
  have cap : ∀ j, 10 ≤ k + j → numthread_full j (2 ^ k) = THREAD_MAX_NUM :=
    fun j hj => numthread_full_capped j k hk hj
  refine ⟨grow, cap, ?_, ?_⟩
  · intro j
    by_cases hj : k + j ≤ 10
    · rw [numthread_full_grow j k hj]
      exact two_pow_le_max (k + j) hj
    · rw [cap j (by omega)]
  · intro j
    by_cases hj : k + (j + 1) ≤ 10
    · left
      rw [grow (j + 1) hj, grow j (by omega), pow_succ]
      ring
    · right
      rw [cap (j + 1) (by omega)]
      by_cases hj2 : k + j ≤ 10
      · have h10 : k + j = 10 := by omega
        rw [numthread_full_grow j k hj2, h10]
        rfl
      · rw [cap j (by omega)]

/-- Witness for C1 (as amended): from `N = 8`, four full-queue steps give 128. -/
theorem full_queue_doubles_to_max_witness :
    3 ≤ 10 ∧ numthread_full 4 (2 ^ 3) = 2 ^ 4 * 2 ^ 3 :=
  ⟨by decide, (full_queue_doubles_to_max 3 (by decide)).1 4 (by decide)⟩

/-- C1 as stated fails at `N = 3`: the start value lies in `[1, THREAD_MAX_NUM]`,
yet after nine full-queue steps `numthread` is 1536, above `THREAD_MAX_NUM`, and
the step after that doubles it again instead of staying put. -/
theorem full_queue_from_three_exceeds_max :
    (1 : Int) ≤ 3 ∧ (3 : Int) ≤ THREAD_MAX_NUM ∧ numthread_full 9 3 = 1536 ∧
      THREAD_MAX_NUM < numthread_full 9 3 ∧ numthread_full 10 3 = 3072 := by
  decide

/-! ### Sustained empty queue -/

theorem adjust_empty_pos (n : Int) (h : 1 ≤ n) :
    (adjust_thread false true n).1 = if n = 1 then 1 else n / 2 := by
  rw [adjust_empty_fst]
  by_cases h1 : n = 1
  · simp [h1]
  · rw [if_neg h1, if_neg h1, Int.tdiv_eq_ediv (by omega) (by norm_num)]

theorem numthread_empty_closed (N : Int) (hN : 1 ≤ N) (k : Nat) :
    numthread_empty k N = max 1 (N / 2 ^ k) := by
  induction k with
  | zero =>
    show N = _
    simp
    omega
  | succ k ih =>
    have hdiv : N / 2 ^ (k + 1) = N / 2 ^ k / 2 := by
      obtain ⟨m, rfl⟩ := Int.eq_ofNat_of_zero_le (le_trans (by norm_num) hN)
      rw [pow_succ]
      norm_cast
      rw [Nat.div_div_eq_div_mul]
    have hq : 0 ≤ N / 2 ^ k := Int.ediv_nonneg (by omega) (by positivity)
    rw [numthread_empty_succ, ih, adjust_empty_pos _ (le_max_left _ _), hdiv]
    rcases le_or_lt (N / 2 ^ k) 1 with h | h
    · rw [max_eq_left h, if_pos rfl]
      have : N / 2 ^ k / 2 = 0 := by omega
      rw [this]
      rfl
    · rw [max_eq_right (le_of_lt h), if_neg (by omega)]
      have : 1 ≤ N / 2 ^ k / 2 := by omega
      rw [max_eq_right this]

theorem int_lt_two_pow_toNat (N : Int) : N < 2 ^ N.toNat := by
  have h1 : N ≤ (N.toNat : Int) := Int.self_le_toNat N
  have h2 : N.toNat < 2 ^ N.toNat := Nat.lt_two_pow N.toNat
  have h3 : ((N.toNat : Nat) : Int) < ((2 ^ N.toNat : Nat) : Int) := by exact_mod_cast h2
  have h4 : ((2 ^ N.toNat : Nat) : Int) = (2 : Int) ^ N.toNat := by push_cast; rfl
  omega

/-- C2: for every starting value `N > 1`, under a sustained queue-empty observation
each step halves `numthread` (C integer division) while it is not 1, `numthread`
reaches 1 after finitely many steps and stays 1 from then on, and it is never
less than 1; after `k` steps it is `max 1 (N / 2 ^ k)`. -/
theorem empty_queue_halves_to_one (N : Int) (hN : 1 < N) :
    (∀ k, 1 ≤ numthread_empty k N) ∧
    (∀ k, numthread_empty k N ≠ 1 →
      numthread_empty (k + 1) N = Int.tdiv (numthread_empty k N) 2) ∧
    (∀ k, numthread_empty k N = 1 → numthread_empty (k + 1) N = 1) ∧
    (∃ k, numthread_empty k N = 1 ∧ ∀ j, k ≤ j → numthread_empty j N = 1) ∧
    (∀ k, numthread_empty k N = max 1 (N / 2 ^ k)) := by
  have closed := numthread_empty_closed N (le_of_lt hN)
  refine ⟨?_, ?_, ?_, ?_, closed⟩
  · intro k
    rw [closed]
    exact le_max_left _ _
  · intro k hk
    rw [numthread_empty_succ, adjust_empty_fst, if_neg hk]
  · intro k hk
    rw [numthread_empty_succ, adjust_empty_fst, if_pos hk, hk]
  · refine ⟨N.toNat, ?_⟩
    have key : ∀ j, N.toNat ≤ j → numthread_empty j N = 1 := by
      intro j hj
      have hlt : N < 2 ^ j :=
        lt_of_lt_of_le (int_lt_two_pow_toNat N) (pow_le_pow_right₀ (by norm_num) hj)
      rw [closed, Int.ediv_eq_zero_of_lt (by omega) hlt]
      rfl
    exact ⟨key _ (le_refl _), key⟩

/-- Witness for C2: from `N = 12` the values are 12, 6, 3, 1, 1, ... -/
theorem empty_queue_halves_to_one_witness :
    (1 : Int) < 12 ∧ numthread_empty 3 12 = max 1 (12 / 2 ^ 3) ∧ 1 ≤ numthread_empty 5 12 :=
  ⟨by decide, (empty_queue_halves_to_one 12 (by decide)).2.2.2.2 3,
    (empty_queue_halves_to_one 12 (by decide)).1 5⟩

/-! ### Reachable states and slot indices -/

theorem pool_sizes_closed :
    ∀ n ∈ pool_sizes, ∀ full empty : Bool, (adjust_thread full empty n).1 ∈ pool_sizes := by
  decide

theorem pool_sizes_step :
    ∀ n ∈ pool_sizes, ∀ full empty : Bool,
      (adjust_thread full empty n).1 = n ∨ (adjust_thread full empty n).1 = 2 * n ∨
        (adjust_thread full empty n).1 = Int.tdiv n 2 := by
  decide

theorem pool_sizes_pow2 : ∀ n ∈ pool_sizes, ∃ k : Nat, k ≤ 10 ∧ n = 2 ^ k := by
  intro n hn
  simp only [pool_sizes, List.mem_cons, List.mem_singleton, List.not_mem_nil, or_false] at hn
  rcases hn with h | h | h | h | h | h | h | h | h | h | h
  · exact ⟨0, by omega, by rw [h]; rfl⟩
  · exact ⟨1, by omega, by rw [h]; rfl⟩
  · exact ⟨2, by omega, by rw [h]; rfl⟩
  · exact ⟨3, by omega, by rw [h]; rfl⟩
  · exact ⟨4, by omega, by rw [h]; rfl⟩
  · exact ⟨5, by omega, by rw [h]; rfl⟩
  · exact ⟨6, by omega, by rw [h]; rfl⟩
  · exact ⟨7, by omega, by rw [h]; rfl⟩
  · exact ⟨8, by omega, by rw [h]; rfl⟩
  · exact ⟨9, by omega, by rw [h]; rfl⟩
  · exact ⟨10, by omega, by rw [h]; rfl⟩

theorem pool_sizes_range : ∀ n ∈ pool_sizes, 1 ≤ n ∧ n ≤ THREAD_MAX_NUM := by
  decide

theorem reachable_pool_sizes (n : Int) (h : Reachable n) : n ∈ pool_sizes := by
  induction h with
  | init => decide
  | step full empty _ ih => exact pool_sizes_closed _ ih full empty

theorem create_thread_loop_slots (fuel : Nat) (i last : Int) (a : Action) (s : Int)
    (ha : a ∈ create_thread_loop fuel i last) (hs : a.slot = some s) : i ≤ s ∧ s < last := by
  induction fuel generalizing i with
  | zero => simp [create_thread_loop] at ha
  | succ fuel ih =>
    unfold create_thread_loop at ha
    split at ha
    · rcases List.mem_cons.1 ha with h | h
      · subst h
        simp only [Action.slot, Option.some.injEq] at hs
        omega
      · rcases List.mem_cons.1 h with h | h
        · subst h
          simp only [Action.slot, Option.some.injEq] at hs
          omega
        · have := ih (i + 1) h
          omega
    · simp at ha

theorem cancel_loop_slots (fuel : Nat) (i numthread : Int) (a : Action) (s : Int)
    (ha : a ∈ cancel_loop fuel i numthread) (hs : a.slot = some s) : i ≤ s ∧ s < numthread := by
  induction fuel generalizing i with
  | zero => simp [cancel_loop] at ha
  | succ fuel ih =>
    unfold cancel_loop at ha
    split at ha
    · rcases List.mem_cons.1 ha with h | h
      · subst h
        simp only [Action.slot, Option.some.injEq] at hs
        omega
      · rcases List.mem_cons.1 h with h | h
        · subst h
          simp only [Action.slot, Option.some.injEq] at hs
          omega
        · rcases List.mem_cons.1 h with h | h
          · subst h
            simp only [Action.slot, Option.some.injEq] at hs
            omega
          · have := ih (i + 1) h
            omega
    · simp at ha

theorem adjust_grow_slots (empty : Bool) (n : Int) (h1 : 1 ≤ n) (h2 : n ≤ THREAD_MAX_NUM)
    (a : Action) (s : Int) (ha : a ∈ (adjust_thread true empty n).2) (hs : a.slot = some s) :
    n ≤ s ∧ s < 2 * n ∧ n ≠ THREAD_MAX_NUM := by
  unfold THREAD_MAX_NUM at h2
  by_cases hmax : n = THREAD_MAX_NUM
  · simp only [adjust_thread, hmax, if_true, List.mem_singleton] at ha
    subst ha
    simp [Action.slot] at hs
  · simp only [adjust_thread, hmax, if_true, if_false, create_thread] at ha
    rw [int32_of_range _ (by omega) (by omega)] at ha
    have := create_thread_loop_slots _ _ _ a s ha hs
    exact ⟨this.1, this.2, hmax⟩

theorem adjust_shrink_slots (n : Int) (h1 : 1 ≤ n)
    (a : Action) (s : Int) (ha : a ∈ (adjust_thread false true n).2) (hs : a.slot = some s) :
    n / 2 ≤ s ∧ s < n := by
  by_cases hone : n = 1
  · simp [adjust_thread, hone] at ha
  · simp only [adjust_thread, hone, if_true, if_false, Bool.false_eq_true] at ha
    rw [Int.tdiv_eq_ediv (by omega) (by norm_num)] at ha
    exact cancel_loop_slots _ _ _ a s ha hs

/-- C3: in every state reachable from `numthread = THREAD_INIT_NUM` by iterations of
`adjust_thread` under arbitrary queue observations, `1 ≤ numthread ≤ THREAD_MAX_NUM`,
and whatever the next observation is, the next value of `numthread` is the old
one, twice the old one, or half of it (C integer division). -/
theorem reachable_numthread_bounds (n : Int) (h : Reachable n) :
    1 ≤ n ∧ n ≤ THREAD_MAX_NUM ∧
    ∀ full empty : Bool,
      (adjust_thread full empty n).1 = n ∨ (adjust_thread full empty n).1 = 2 * n ∨
        (adjust_thread full empty n).1 = Int.tdiv n 2 :=
  have hn := reachable_pool_sizes n h
  ⟨(pool_sizes_range n hn).1, (pool_sizes_range n hn).2, pool_sizes_step n hn⟩

/-- Witness for C3: the state after two growth steps (`numthread = 4`). -/
theorem reachable_numthread_bounds_witness :
    Reachable 4 ∧ (1 : Int) ≤ 4 ∧ (4 : Int) ≤ THREAD_MAX_NUM :=
  have h4 : Reachable 4 := Reachable.step true false (Reachable.step true false Reachable.init)
  ⟨h4, (reachable_numthread_bounds 4 h4).1, (reachable_numthread_bounds 4 h4).2.1⟩

/-- C10: in every state reachable from the initial one (`numthread = 1`, slots `[0, 1)`
created), `numthread` is a power of two (at most `2 ^ 10`); every slot index touched
by a growth step lies in `[numthread, 2 * numthread)` and a growth step touches
slots only when `numthread != THREAD_MAX_NUM`; every slot index touched by a
shrink step lies in `[numthread / 2, numthread)`; and every slot index touched by
any step satisfies `0 <= i < THREAD_MAX_NUM`. -/
theorem slot_indices_in_bounds (n : Int) (h : Reachable n) :
    (∃ k : Nat, k ≤ 10 ∧ n = 2 ^ k) ∧
    create_thread 0 THREAD_INIT_NUM = [Action.Sem_init 0, Action.Pthread_create 0] ∧
    (∀ (empty : Bool) (a : Action) (i : Int), a ∈ (adjust_thread true empty n).2 →
      a.slot = some i → n ≤ i ∧ i < 2 * n ∧ n ≠ THREAD_MAX_NUM) ∧
    (∀ (a : Action) (i : Int), a ∈ (adjust_thread false true n).2 →
      a.slot = some i → n / 2 ≤ i ∧ i < n) ∧
    (∀ (full empty : Bool) (a : Action) (i : Int), a ∈ (adjust_thread full empty n).2 →
      a.slot = some i → 0 ≤ i ∧ i < THREAD_MAX_NUM) := by
  have hn := reachable_pool_sizes n h
  obtain ⟨h1, h2⟩ := pool_sizes_range n hn
  have grow := fun empty a i => adjust_grow_slots empty n h1 h2 a i
  have shrink := fun a i => adjust_shrink_slots n h1 a i
  refine ⟨pool_sizes_pow2 n hn, by decide, grow, shrink, ?_⟩
  intro full empty a i ha hs
  cases full with
  | true =>
    obtain ⟨g1, g2, g3⟩ := grow empty a i ha hs
    have hstep := pool_sizes_range _ (pool_sizes_closed n hn true empty)
    rw [adjust_full_fst, if_neg g3] at hstep
    unfold THREAD_MAX_NUM at h2 hstep ⊢
    rw [int32_of_range _ (by omega) (by omega)] at hstep
    omega
  | false =>
    cases empty with
    | true =>
      obtain ⟨g1, g2⟩ := shrink a i ha hs
      unfold THREAD_MAX_NUM at h2 ⊢
      omega
    | false => simp [adjust_thread] at ha

/-- Witness for C10: the initial state. -/
theorem slot_indices_in_bounds_witness :
    Reachable THREAD_INIT_NUM ∧ ∃ k : Nat, k ≤ 10 ∧ THREAD_INIT_NUM = 2 ^ k :=
  ⟨Reachable.init, (slot_indices_in_bounds THREAD_INIT_NUM Reachable.init).1⟩

/-! ### The shrink step -/

theorem cancel_slots_succ (first : Int) (c : Nat) :
    cancel_slots first (c + 1) =
      Action.P first :: Action.Pthread_cancel first :: Action.V first ::
        cancel_slots (first + 1) c := by
  unfold cancel_slots
  rw [List.range_succ_eq_map, List.flatMap_cons, List.flatMap_map]
  simp only [Nat.cast_zero, add_zero, List.cons_append, List.nil_append, List.cons.injEq,
    true_and]
  congr 1
  funext j
  simp only [Function.comp, Nat.succ_eq_add_one, Nat.cast_add, Nat.cast_one]
  have : first + ((j : Int) + 1) = first + 1 + j := by ring
  rw [this]

theorem cancel_loop_eq (fuel : Nat) (i numthread : Int) (h : (numthread - i).toNat ≤ fuel) :
    cancel_loop fuel i numthread = cancel_slots i (numthread - i).toNat := by
  induction fuel generalizing i with
  | zero =>
    have h0 : (numthread - i).toNat = 0 := by omega
    rw [h0]
    rfl
  | succ fuel ih =>
    unfold cancel_loop
    by_cases hlt : i < numthread
    · rw [if_pos hlt, ih (i + 1) (by omega)]
      have hs : (numthread - i).toNat = (numthread - (i + 1)).toNat + 1 := by omega
      rw [hs, cancel_slots_succ]
    · rw [if_neg hlt]
      have h0 : (numthread - i).toNat = 0 := by omega
      rw [h0]
      rfl

theorem cancel_under_lock_slots (held : List Int) (first : Int) (c : Nat) :
    cancel_under_lock held (cancel_slots first c) = true := by
  induction c generalizing first with
  | zero => rfl
  | succ c ih =>
    rw [cancel_slots_succ]
    simp only [cancel_under_lock, List.mem_cons, true_or, decide_True, Bool.true_and,
      List.erase_cons_head]
    exact ih (first + 1)

theorem mem_cancel_slots (first : Int) (c : Nat) (i : Int) :
    Action.Pthread_cancel i ∈ cancel_slots first c ↔ first ≤ i ∧ i < first + c := by
  unfold cancel_slots
  simp only [List.mem_flatMap, List.mem_range, List.mem_cons, Action.Pthread_cancel.injEq,
    List.mem_singleton, List.not_mem_nil, or_false, false_or, reduceCtorEq]
  constructor
  · rintro ⟨j, hj, rfl⟩
    omega
  · intro h
    refine ⟨(i - first).toNat, by omega, by omega⟩

/-- C5: when `adjust_thread` observes an empty queue with `numthread = n > 1`, the
step sets `numthread` to `n / 2` and its calls are, for the slots `n / 2, ..., n - 1`
in ascending order and for no other slot, exactly `P(i)`, `Pthread_cancel(i)`,
`V(i)`; a slot is cancelled iff its index is in `[n / 2, n)`, and every
cancellation is issued while the controller holds that slot's lock. -/
theorem shrink_step_cancels_upper_half (n : Int) (h : 1 < n) :
    adjust_thread false true n =
      (Int.tdiv n 2, cancel_slots (Int.tdiv n 2) (n - Int.tdiv n 2).toNat) ∧
    (∀ i : Int, Action.Pthread_cancel i ∈ (adjust_thread false true n).2 ↔
      Int.tdiv n 2 ≤ i ∧ i < n) ∧
    cancel_under_lock [] (adjust_thread false true n).2 = true := by
  have hstep : adjust_thread false true n =
      (Int.tdiv n 2, cancel_slots (Int.tdiv n 2) (n - Int.tdiv n 2).toNat) := by
    have hone : n ≠ 1 := by omega
    simp only [adjust_thread, hone, if_false, Bool.false_eq_true, if_true]
    rw [cancel_loop_eq _ _ _ (le_refl _)]
  refine ⟨hstep, ?_, ?_⟩
  · intro i
    rw [hstep, mem_cancel_slots]
    have hd : Int.tdiv n 2 = n / 2 := Int.tdiv_eq_ediv (by omega) (by norm_num)
    have hc : (((n - Int.tdiv n 2).toNat : Nat) : Int) = n - Int.tdiv n 2 :=
      Int.toNat_of_nonneg (by omega)
    rw [hc]
    constructor <;> intro hi <;> omega
  · rw [hstep]
    exact cancel_under_lock_slots [] _ _

/-- Witness for C5: with `numthread = 4` the step cancels slots 2 and 3. -/
theorem shrink_step_cancels_upper_half_witness :
    (1 : Int) < 4 ∧
    adjust_thread false true 4 =
      (Int.tdiv 4 2, cancel_slots (Int.tdiv 4 2) ((4 : Int) - Int.tdiv 4 2).toNat) :=
  ⟨by decide, (shrink_step_cancels_upper_half 4 (by decide)).1⟩

/-! ## Theorems: bounded queue -/

theorem queue_ok_op (C : Nat) (r : QueueRun) (o : QueueOp) (h : r.ok C) : (r.op o).ok C := by
  obtain ⟨hn, hc, hle, hfifo⟩ := h
  cases o with
  | Insert item =>
    by_cases hf : r.q.count = (r.q.n : Int)
    · simpa [QueueRun.op, sbuf_insert, sbuf_full, hf] using ⟨hn, hc, hle, hfifo⟩
    · simp only [QueueRun.op, sbuf_insert, sbuf_full, hf, decide_False, Bool.false_eq_true,
        if_false]
      refine ⟨hn, ?_, ?_, ?_⟩
      · simp only [List.length_append, List.length_singleton, Nat.cast_add, Nat.cast_one]
        omega
      · show r.q.count + 1 ≤ (C : Int)
        rw [hn] at hf
        omega
      · show r.removed ++ (r.q.items ++ [item]) = r.inserted ++ [item]
        rw [← List.append_assoc, hfifo]
  | Remove =>
    by_cases he : r.q.count = 0
    · simpa [QueueRun.op, sbuf_remove, sbuf_empty, he] using ⟨hn, hc, hle, hfifo⟩
    · cases hitems : r.q.items with
      | nil =>
        simp only [QueueRun.op, sbuf_remove, sbuf_empty, he, decide_False, Bool.false_eq_true,
          if_false, hitems]
        exact ⟨hn, hc, hle, hfifo⟩
      | cons item rest =>
        simp only [QueueRun.op, sbuf_remove, sbuf_empty, he, decide_False, Bool.false_eq_true,
          if_false, hitems]
        rw [hitems] at hc hfifo
        refine ⟨hn, ?_, ?_, ?_⟩
        · show r.q.count - 1 = (rest.length : Int)
          simp only [List.length_cons, Nat.cast_add, Nat.cast_one] at hc
          omega
        · show r.q.count - 1 ≤ (C : Int)
          omega
        · show r.removed ++ [item] ++ rest = r.inserted
          rw [← hfifo]
          simp

theorem queue_ok_foldl (C : Nat) (ops : List QueueOp) (r : QueueRun) (h : r.ok C) :
    (ops.foldl QueueRun.op r).ok C := by
  induction ops generalizing r with
  | nil => exact h
  | cons o ops ih => exact ih _ (queue_ok_op C r o h)

/-- C4: for every sequence of `Insert` / `Remove` operations on a queue of capacity `C`,
the element count stays between 0 and `C` (and equals the number of queued
handles), and the handles returned by `Remove`, followed by those still queued,
are the inserted handles in insertion order (FIFO). -/
theorem queue_count_bounded_fifo (C : Nat) (ops : List QueueOp) :
    0 ≤ (run_ops C ops).q.count ∧ (run_ops C ops).q.count ≤ (C : Int) ∧
    (run_ops C ops).q.count = ((run_ops C ops).q.items.length : Int) ∧
    (run_ops C ops).removed ++ (run_ops C ops).q.items = (run_ops C ops).inserted ∧
    (run_ops C ops).removed <+: (run_ops C ops).inserted := by
  have h : (run_ops C ops).ok C :=
    queue_ok_foldl C ops _ ⟨rfl, rfl, by simp [sbuf_init], rfl⟩
  obtain ⟨_, hc, hle, hfifo⟩ := h
  exact ⟨by rw [hc]; exact Int.ofNat_nonneg _, hle, hc, hfifo, ⟨_, hfifo⟩⟩

/-- The capacity-4 scenario: four inserts succeed, the fifth blocks, and after one
`Remove` (which returns the first handle) it succeeds. -/
theorem queue_capacity_four_scenario :
    (run_ops SBUFSIZE [.Insert 10, .Insert 11, .Insert 12, .Insert 13]).inserted = [10, 11, 12, 13] ∧
    sbuf_insert (run_ops SBUFSIZE [.Insert 10, .Insert 11, .Insert 12, .Insert 13]).q 14 = none ∧
    (run_ops SBUFSIZE [.Insert 10, .Insert 11, .Insert 12, .Insert 13, .Insert 14, .Remove,
      .Insert 14]).removed = [10] ∧
    (run_ops SBUFSIZE [.Insert 10, .Insert 11, .Insert 12, .Insert 13, .Insert 14, .Remove,
      .Insert 14]).q.items = [11, 12, 13, 14] := by
  decide

/-! ## Theorems: `parse_uri` -/

theorem strcasecmp_of_map_eq (a b : List Char) (h : a.map Char.toLower = b.map Char.toLower) :
    strcasecmp a b = 0 := by
  induction a generalizing b with
  | nil =>
    cases b with
    | nil => rfl
    | cons y ys => simp at h
  | cons x xs ih =>
    cases b with
    | nil => simp at h
    | cons y ys =>
      simp only [List.map_cons, List.cons.injEq] at h
      unfold strcasecmp
      rw [if_pos (by unfold tolower; rw [h.1])]
      exact ih ys h.2

theorem starts_with_iff (needle s : List Char) : starts_with needle s = true ↔ needle <+: s := by
  induction needle generalizing s with
  | nil => simp [starts_with]
  | cons a needle ih =>
    cases s with
    | nil => simp [starts_with]
    | cons b s =>
      simp only [starts_with, Bool.and_eq_true, decide_eq_true_eq, List.cons_prefix_cons, ih]

theorem strstr_isSome_iff (s needle : List Char) :
    (strstr s needle).isSome = true ↔ needle <:+: s := by
  induction s with
  | nil =>
    unfold strstr
    by_cases h : starts_with needle [] = true
    · have := (starts_with_iff needle []).1 h
      simp [h, this.isInfix]
    · have hn : ¬ needle <+: [] := fun hp => h ((starts_with_iff needle []).2 hp)
      simp only [h, Bool.false_eq_true, if_false, Option.isSome_none, false_iff]
      intro hinf
      exact hn (by simpa using hinf)
  | cons c cs ih =>
    unfold strstr
    rw [List.infix_cons_iff]
    by_cases h : starts_with needle (c :: cs) = true
    · simp [h, (starts_with_iff needle (c :: cs)).1 h]
    · have hn : ¬ needle <+: c :: cs := fun hp => h ((starts_with_iff needle _).2 hp)
      simp only [h, Bool.false_eq_true, if_false, ih, hn, false_or]

theorem index_of_split (pre post : List Char) (c : Char) (h : c ∉ pre) :
    index (pre ++ c :: post) c = some pre.length := by
  induction pre with
  | nil => simp [index]
  | cons a pre ih =>
    have ha : a ≠ c := fun e => h (by simp [e])
    have hp : c ∉ pre := fun e => h (by simp [e])
    simp [index, ha, ih hp]

theorem index_of_not_mem (s : List Char) (c : Char) (h : c ∉ s) : index s c = none := by
  induction s with
  | nil => rfl
  | cons a s ih =>
    have ha : a ≠ c := fun e => h (by simp [e])
    have hp : c ∉ s := fun e => h (by simp [e])
    simp [index, ha, ih hp]

/-- C6: for every URI containing `cgi-bin` and every method equal to GET or HEAD up to
letter case, `parse_uri` returns 0 and splits the URI at its first `?`: with
`uri = pre ++ "?" ++ post` and no `?` in `pre`, `cgiargs` is `post` and `filename`
is `"." ++ pre`; without a `?`, `cgiargs` is empty and `filename` is `"." ++ uri`. -/
theorem parse_uri_dynamic_get_head (MAXLINE : Nat) (uri cgiargs method : List Char)
    (hcgi : "cgi-bin".toList <:+: uri)
    (hm : method.map Char.toLower = "get".toList ∨ method.map Char.toLower = "head".toList) :
    (∀ pre post : List Char, uri = pre ++ '?' :: post → '?' ∉ pre →
      parse_uri MAXLINE uri cgiargs method = some ⟨0, pre, '.' :: pre, post⟩) ∧
    ('?' ∉ uri → parse_uri MAXLINE uri cgiargs method = some ⟨0, uri, '.' :: uri, []⟩) ∧
    (∃ p, parse_uri MAXLINE uri cgiargs method = some p ∧ p.ret = 0) := by
  have hdyn : (strstr uri "cgi-bin".toList).isNone = false := by
    have := (strstr_isSome_iff uri "cgi-bin".toList).2 hcgi
    cases hs : strstr uri "cgi-bin".toList with
    | none => rw [hs] at this; simp at this
    | some x => rfl
  have hmeth : strcasecmp method "GET".toList = 0 ∨ strcasecmp method "HEAD".toList = 0 := by
    rcases hm with h | h
    · exact Or.inl (strcasecmp_of_map_eq _ _ (by rw [h]; decide))
    · exact Or.inr (strcasecmp_of_map_eq _ _ (by rw [h]; decide))
  have hsplit : ∀ pre post : List Char, uri = pre ++ '?' :: post → '?' ∉ pre →
      parse_uri MAXLINE uri cgiargs method = some ⟨0, pre, '.' :: pre, post⟩ := by
    intro pre post hu hpre
    unfold parse_uri
    rw [hdyn, if_neg (by simp), if_pos hmeth, hu, index_of_split pre post '?' hpre]
    simp only [List.take_left, Option.some.injEq, ParseUri.mk.injEq, true_and]
    refine ⟨rfl, ?_⟩
    rw [← List.drop_drop, List.drop_left]
    rfl
  have hnone : '?' ∉ uri → parse_uri MAXLINE uri cgiargs method = some ⟨0, uri, '.' :: uri, []⟩ := by
    intro hq
    unfold parse_uri
    rw [hdyn, if_neg (by simp), if_pos hmeth, index_of_not_mem uri '?' hq]
    rfl
  refine ⟨hsplit, hnone, ?_⟩
  by_cases hq : '?' ∈ uri
  · obtain ⟨pre, post, hu, hpre⟩ := List.eq_append_cons_of_mem hq
    exact ⟨_, hsplit pre post hu hpre, rfl⟩
  · exact ⟨_, hnone hq, rfl⟩

/-- Witness for C6: `GET /cgi-bin/adder?15&20` gives `cgiargs = "15&20"` and
`filename = "./cgi-bin/adder"`. -/
theorem parse_uri_dynamic_get_head_witness :
    parse_uri 8192 "/cgi-bin/adder?15&20".toList "junk".toList "GET".toList =
      some ⟨0, "/cgi-bin/adder".toList, "./cgi-bin/adder".toList, "15&20".toList⟩ :=
  (parse_uri_dynamic_get_head 8192 "/cgi-bin/adder?15&20".toList "junk".toList "GET".toList
    ⟨"/".toList, "/adder?15&20".toList, by decide⟩ (Or.inl (by decide))).1
    "/cgi-bin/adder".toList "15&20".toList (by decide) (by decide)

/-- For every non-empty URI that does not contain `cgi-bin` (and any method) and whose
file name fits `filename[MAXLINE]`, `parse_uri` returns 1, sets `cgiargs` to the
empty string, and sets `filename` to `"." ++ uri`, followed by `home.html`
exactly when the last character of the URI is `/`. -/
theorem parse_uri_static_fits (MAXLINE : Nat) (uri cgiargs method : List Char) (hne : uri ≠ [])
    (hno : ¬ "cgi-bin".toList <:+: uri)
    (hfit : (if uri.getLast? = some '/' then uri.length + 10 else uri.length + 1) < MAXLINE) :
    parse_uri MAXLINE uri cgiargs method =
      some ⟨1, uri,
        if uri.getLast? = some '/' then '.' :: uri ++ "home.html".toList else '.' :: uri,
        []⟩ := by
  have hst : (strstr uri "cgi-bin".toList).isNone = true := by
    cases hs : strstr uri "cgi-bin".toList with
    | none => rfl
    | some x =>
      exact absurd ((strstr_isSome_iff uri "cgi-bin".toList).1 (by rw [hs]; rfl)) hno
  have hlen1 : (".".toList ++ uri).length = uri.length + 1 := by
    simp [Nat.add_comm]
  have hlen2 : (".".toList ++ uri ++ "home.html".toList).length = uri.length + 10 := by
    simp only [List.length_append, hlen1]
    rfl
  have hfit1 : ¬ MAXLINE < (".".toList ++ uri).length + 1 := by
    rw [hlen1]
    split at hfit <;> omega
  unfold parse_uri
  rw [hst, if_pos rfl, if_neg hfit1]
  cases hl : uri.getLast? with
  | none => exact absurd (List.getLast?_eq_none_iff.1 hl) hne
  | some c =>
    by_cases hc : c = '/'
    · subst hc
      rw [hl, if_pos rfl] at hfit
      have hfit2 : ¬ MAXLINE < (".".toList ++ uri ++ "home.html".toList).length + 1 := by
        rw [hlen2]
        omega
      simp only [if_true, if_neg hfit2]
      rfl
    · simp only [hc, if_false, Option.some.injEq]
      rfl

/-- The scenario `GET /`: the file name resolves to `./home.html`. -/
theorem parse_uri_static_fits_home :
    parse_uri 8192 "/".toList "junk".toList "GET".toList =
      some ⟨1, "/".toList, "./home.html".toList, []⟩ :=
  parse_uri_static_fits 8192 "/".toList "junk".toList "GET".toList (by decide) (by decide)
    (by decide)

/-- A static URI that ends in `/` and has `MAXLINE - 10` bytes or more makes
`strcat(filename, "home.html")` write past `filename[MAXLINE]`. -/
theorem parse_uri_static_overrun (MAXLINE : Nat) (uri cgiargs method : List Char)
    (hno : ¬ "cgi-bin".toList <:+: uri) (hlast : uri.getLast? = some '/')
    (hlong : MAXLINE ≤ uri.length + 10) :
    parse_uri MAXLINE uri cgiargs method = none := by
  have hst : (strstr uri "cgi-bin".toList).isNone = true := by
    cases hs : strstr uri "cgi-bin".toList with
    | none => rfl
    | some x =>
      exact absurd ((strstr_isSome_iff uri "cgi-bin".toList).1 (by rw [hs]; rfl)) hno
  have hlen2 : (".".toList ++ uri ++ "home.html".toList).length = uri.length + 10 := by
    simp only [List.length_append]
    show 1 + uri.length + 9 = _
    omega
  unfold parse_uri
  rw [hst, if_pos rfl]
  split
  · rfl
  · simp only [hlast, if_true]
    rw [if_pos (by rw [hlen2]; omega)]

theorem long_uri_chars (c : Char) (h : c ∈ long_uri) : c = '/' ∨ c = 'a' := by
  simp only [long_uri, List.mem_cons, List.mem_append, List.mem_replicate,
    List.mem_singleton, List.not_mem_nil, or_false] at h
  rcases h with h | h | h
  · exact Or.inl h
  · exact Or.inr h.2
  · exact Or.inl h

theorem long_uri_no_cgi_bin : ¬ "cgi-bin".toList <:+: long_uri := by
  intro h
  have hc : 'c' ∈ long_uri := h.subset (by decide)
  rcases long_uri_chars 'c' hc with h | h
  · exact absurd h (by decide)
  · exact absurd h (by decide)

theorem long_uri_last : long_uri.getLast? = some '/' := by
  have h : long_uri = ('/' :: List.replicate 8185 'a') ++ ['/'] := rfl
  rw [h, List.getLast?_append]
  rfl

theorem long_uri_length : long_uri.length = 8187 := by
  simp only [long_uri, List.length_cons, List.length_append, List.length_replicate,
    List.length_singleton, List.length_nil]

theorem rio_readlineb_loop_exact (s t : List Char) (h : '\n' ∉ s) :
    rio_readlineb_loop s.length (s ++ t) = (s, t) := by
  induction s with
  | nil => cases t <;> rfl
  | cons c s ih =>
    have hc : c ≠ '\n' := fun e => h (by simp [e])
    have hs : '\n' ∉ s := fun e => h (by simp [e])
    show rio_readlineb_loop (s.length + 1) (c :: (s ++ t)) = _
    unfold rio_readlineb_loop
    rw [if_neg hc, ih hs]

theorem Rio_readlineb_cons (maxlen : Nat) (c : Char) (s : List Char) :
    Rio_readlineb maxlen (c :: s) =
      (some (rio_readlineb_loop (maxlen - 1) (c :: s)).1,
        (rio_readlineb_loop (maxlen - 1) (c :: s)).2) := by
  unfold Rio_readlineb
  cases maxlen - 1 <;> rfl

theorem cstr_of_no_nul (s : List Char) (h : '\x00' ∉ s) : cstr s = s := by
  unfold cstr
  rw [List.takeWhile_eq_self_iff]
  intro c hc
  have : c ≠ '\x00' := fun e => h (e ▸ hc)
  simpa using this

theorem scan_word_skip_space (s : List Char) : scan_word (' ' :: s) = scan_word s := by
  unfold scan_word
  rw [List.dropWhile_cons_of_pos (by decide)]

theorem span_word (w rest : List Char) (hw : ∀ c ∈ w, isspace c = false)
    (hrest : rest = [] ∨ ∃ c r, rest = c :: r ∧ isspace c = true) :
    (w ++ rest).takeWhile (fun x => !isspace x) = w ∧
      (w ++ rest).dropWhile (fun x => !isspace x) = rest := by
  induction w with
  | nil =>
    rcases hrest with h | ⟨c, r, h, hc⟩
    · subst h
      exact ⟨rfl, rfl⟩
    · subst h
      simp [List.takeWhile, List.dropWhile, hc]
  | cons a w ih =>
    have ha : isspace a = false := hw a (by simp)
    have := ih (fun c hc => hw c (by simp [hc]))
    simp [List.takeWhile, List.dropWhile, ha, this.1, this.2]

theorem scan_word_word (a : Char) (w rest : List Char) (hw : ∀ c ∈ a :: w, isspace c = false)
    (hrest : rest = [] ∨ ∃ c r, rest = c :: r ∧ isspace c = true) :
    scan_word (a :: w ++ rest) = some (a :: w, rest) := by
  have ha : isspace a = false := hw a (by simp)
  have hsp := span_word (a :: w) rest hw hrest
  unfold scan_word
  have hd : (a :: w ++ rest).dropWhile isspace = a :: (w ++ rest) := by
    simp [List.dropWhile, ha]
  rw [hd]
  simp only [Option.some.injEq, Prod.mk.injEq]
  exact hsp

theorem long_request_line_chars (c : Char) (h : c ∈ "GET ".toList ++ long_uri) :
    c = 'G' ∨ c = 'E' ∨ c = 'T' ∨ c = ' ' ∨ c = '/' ∨ c = 'a' := by
  rcases List.mem_append.1 h with h | h
  · have h4 : c = 'G' ∨ c = 'E' ∨ c = 'T' ∨ c = ' ' := by
      simpa [String.toList] using h
    rcases h4 with h | h | h | h <;> simp [h]
  · rcases long_uri_chars c h with h | h <;> simp [h]

theorem long_request_first_line :
    Rio_readlineb 8192 long_request =
      (some ("GET ".toList ++ long_uri), " HTTP/1.0\r\n\r\n".toList) := by
  have hnl : '\n' ∉ "GET ".toList ++ long_uri := by
    intro h
    rcases long_request_line_chars _ h with h | h | h | h | h | h <;>
      exact absurd h (by decide)
  have hlen : ("GET ".toList ++ long_uri).length = 8192 - 1 := by
    rw [List.length_append, long_uri_length]
    rfl
  have hreq : long_request = 'G' :: ("ET ".toList ++ (long_uri ++ " HTTP/1.0\r\n\r\n".toList)) :=
    rfl
  have happ : 'G' :: ("ET ".toList ++ (long_uri ++ " HTTP/1.0\r\n\r\n".toList)) =
      ("GET ".toList ++ long_uri) ++ " HTTP/1.0\r\n\r\n".toList := by
    rw [List.append_assoc]
    rfl
  rw [hreq, Rio_readlineb_cons, happ, ← hlen, rio_readlineb_loop_exact _ _ hnl]

theorem long_request_scan (method0 uri0 version0 : List Char) :
    sscanf_request (cstr ("GET ".toList ++ long_uri)) method0 uri0 version0 =
      ("GET".toList, long_uri, version0) := by
  have hnul : '\x00' ∉ "GET ".toList ++ long_uri := by
    intro h
    rcases long_request_line_chars _ h with h | h | h | h | h | h <;>
      exact absurd h (by decide)
  have huri : ∀ c ∈ '/' :: (List.replicate 8185 'a' ++ ['/']), isspace c = false := by
    intro c hc
    rcases long_uri_chars c hc with h | h <;> rw [h] <;> decide
  have h1 : scan_word ("GET ".toList ++ long_uri) = some ("GET".toList, ' ' :: long_uri) :=
    scan_word_word 'G' "ET".toList (' ' :: long_uri) (by decide)
      (Or.inr ⟨' ', long_uri, rfl, by decide⟩)
  have h2 : scan_word (' ' :: long_uri) = some (long_uri, []) := by
    rw [scan_word_skip_space]
    have := scan_word_word '/' (List.replicate 8185 'a' ++ ['/']) [] huri (Or.inl rfl)
    rw [List.append_nil] at this
    exact this
  have h3 : scan_word [] = none := rfl
  rw [cstr_of_no_nul _ hnul]
  unfold sscanf_request
  simp only [h1, h2, h3]

/-- C7 (the code at the failing input): the request line `GET <long_uri>` is 8191 bytes
long, so `Rio_readlineb` returns it whole and `sscanf` hands `parse_uri` the
8187-byte URI, which is non-empty, has no `cgi-bin` and ends in `/`.  The file
name the claim describes, `"." ++ uri ++ "home.html"`, has 8197 characters, more
than `filename[8192]` holds: `strcat(filename, "home.html")` overruns the array,
and neither `parse_uri` nor `doit` returns a defined result. -/
theorem long_static_uri_overruns_filename :
    long_uri ≠ [] ∧ ¬ "cgi-bin".toList <:+: long_uri ∧ long_uri.getLast? = some '/' ∧
    ('.' :: long_uri ++ "home.html".toList).length = 8197 ∧
    Rio_readlineb 8192 long_request =
      (some ("GET ".toList ++ long_uri), " HTTP/1.0\r\n\r\n".toList) ∧
    sscanf_request (cstr ("GET ".toList ++ long_uri)) [] [] [] = ("GET".toList, long_uri, []) ∧
    parse_uri 8192 long_uri [] "GET".toList = none ∧
    doit 8192 stat_example (zeroed 8192) long_request = none := by
  have hparse : ∀ cgiargs : List Char, parse_uri 8192 long_uri cgiargs "GET".toList = none :=
    fun cgiargs => parse_uri_static_overrun 8192 long_uri cgiargs "GET".toList
      long_uri_no_cgi_bin long_uri_last (by rw [long_uri_length]; decide)
  have hhdrs : read_requesthdrs 8192 " HTTP/1.0\r\n\r\n".toList "GET".toList
      (zeroed 8192).cgiargs (zeroed 8192).hdr_buf (zeroed 8192).cgi = some ([], []) := by
    decide
  refine ⟨?_, long_uri_no_cgi_bin, long_uri_last, ?_, long_request_first_line,
    long_request_scan [] [] [], hparse [], ?_⟩
  · intro h
    have := long_uri_length
    rw [h] at this
    exact absurd this (by decide)
  · rw [List.length_append, List.length_cons, long_uri_length]
    rfl
  · have hline : Rio_readlineb 8192 long_request =
        (some ('G' :: ("ET ".toList ++ long_uri)), " HTTP/1.0\r\n\r\n".toList) :=
      long_request_first_line
    have hscan : sscanf_request (cstr ('G' :: ("ET ".toList ++ long_uri)))
        (zeroed 8192).method (zeroed 8192).uri (zeroed 8192).version =
          ("GET".toList, long_uri, []) :=
      long_request_scan [] [] []
    unfold doit
    rw [hline]
    simp only [hscan, hhdrs, hparse]
    rw [if_neg (by decide)]

/-! ## Theorems: `doit` -/

theorem strcasecmp_post_get (method : List Char)
    (hm : method.map Char.toLower = "post".toList) :
    strcasecmp method "GET".toList ≠ 0 ∧ strcasecmp method "HEAD".toList ≠ 0 := by
  cases method with
  | nil => simp at hm
  | cons a rest =>
    have ha : a.toLower = 'p' := by
      have h := hm
      simp only [List.map_cons] at h
      exact (List.cons.inj h).1
    have hg : ¬ tolower a = tolower 'G' := by
      unfold tolower
      rw [ha]
      decide
    have hh : ¬ tolower a = tolower 'H' := by
      unfold tolower
      rw [ha]
      decide
    constructor
    · show strcasecmp (a :: rest) ('G' :: "ET".toList) ≠ 0
      unfold strcasecmp
      rw [if_neg hg]
      unfold tolower
      rw [ha]
      decide
    · show strcasecmp (a :: rest) ('H' :: "EAD".toList) ≠ 0
      unfold strcasecmp
      rw [if_neg hh]
      unfold tolower
      rw [ha]
      decide

/-- For POST and a URI containing `cgi-bin`, `parse_uri` returns 0, does not split the
URI and leaves `cgiargs` as it was on entry. -/
theorem parse_uri_post_keeps_cgiargs (MAXLINE : Nat) (uri cgiargs method : List Char)
    (hcgi : "cgi-bin".toList <:+: uri) (hm : method.map Char.toLower = "post".toList) :
    parse_uri MAXLINE uri cgiargs method = some ⟨0, uri, '.' :: uri, cgiargs⟩ := by
  have hdyn : (strstr uri "cgi-bin".toList).isNone = false := by
    have := (strstr_isSome_iff uri "cgi-bin".toList).2 hcgi
    cases hs : strstr uri "cgi-bin".toList with
    | none => rw [hs] at this; simp at this
    | some x => rfl
  obtain ⟨h1, h2⟩ := strcasecmp_post_get method hm
  unfold parse_uri
  rw [hdyn, if_neg (by simp), if_neg (fun h => h.elim h1 h2)]
  rfl

/-- In the child, `serve_dynamic` sets `QUERY_STRING` to `cgiargs` and
`REQUEST_METHOD` to the method before it runs the program. -/
theorem serve_dynamic_environment (filename cgiargs method : List Char) :
    serve_dynamic filename cgiargs method =
      [ Event.Rio_writen "HTTP/1.0 200 OK\r\n".toList,
        Event.Rio_writen "Server: Tiny Web Server\r\n".toList,
        Event.Fork, Event.Signal_SIGPIPE_DFL,
        Event.setenv "QUERY_STRING".toList cgiargs,
        Event.setenv "REQUEST_METHOD".toList method,
        Event.Dup2_stdout, Event.Execve filename ] :=
  rfl

/-- C8 (the code at the failing input): the POST request with `Content-Length: 5` and
body `a=123` for `/cgi-bin/echo`, handled while the local array `cgi` of
`read_requesthdrs` still holds the bytes `name=alice` of an earlier body.
`Rio_readnb` stores the five body bytes without a terminating NUL, so `strcpy`
copies on and `serve_dynamic` receives `cgiargs = "a=123alice"`, which is what
`QUERY_STRING` is set to; with a zero-filled `cgi` the same request gives
`cgiargs = "a=123"`. -/
theorem post_body_not_terminated :
    doit 8192 stat_example (after_longer_post 8192) post_request =
      some (Call.serve_dynamic "./cgi-bin/echo".toList "a=123alice".toList "POST".toList) ∧
    Event.setenv "QUERY_STRING".toList "a=123alice".toList ∈
      (Call.serve_dynamic "./cgi-bin/echo".toList "a=123alice".toList "POST".toList).events ∧
    read_requesthdrs 8192 (post_request.drop 29) "POST".toList []
      [] (after_longer_post 8192).cgi = some ([], "a=123alice".toList) ∧
    doit 8192 stat_example (zeroed 8192) post_request =
      some (Call.serve_dynamic "./cgi-bin/echo".toList "a=123".toList "POST".toList) := by
  decide

end Tiny
